import Mathlib

/-!
Shallow embedding of the candidate-evaluation pipeline of the stockpicker
repository (src/app/config.py, indicators.py, scanner.py, ranker.py,
levels.py), together with theorems settling the frozen claims about it.

Modelling conventions:
* Python floats are modelled by `ℚ` (exact rational arithmetic); decimal
  literals such as `0.15` are written `15/100`.
* Python ints are modelled by `ℤ`.
* pandas DataFrames of OHLCV bars are modelled by `List Bar`, ordered
  timestamp-ascending; timestamps are minutes as `ℤ` (the timezone
  localisation in `compute_or_levels` is abstracted away: bar timestamps and
  the session open are assumed already expressed on one clock).
* `None`-able values are `Option`; Python attribute access on the pydantic
  `Settings` object is modelled by `settings_num_attr`, which returns
  `Except` — an undefined attribute raises `AttributeError` in Python and is
  an `Except.error` here.
* f-string rejection messages keep only their fixed text (numeric
  interpolation is abstracted).
-/

/-- A Python exception surfaced by the pipeline.  The only exception the
embedded code can raise is an `AttributeError` from reading an attribute
that the `Settings` class does not define. -/
inductive PyErr where
  | attributeError (name : String)
deriving DecidableEq, Repr

/-- Round-half-to-even on an exact rational, the tie-breaking rule of
Python's built-in `round`. -/
def round_half_even (x : ℚ) : ℤ :=
  let f : ℤ := ⌊x⌋
  let r : ℚ := x - f
  if r < 1/2 then f
  else if 1/2 < r then f + 1
  else if 2 ∣ f then f else f + 1

/-- Python's `round(x, dp)` on the idealised rational value. -/
def round_to (dp : ℕ) (x : ℚ) : ℚ :=
  (round_half_even (x * (10 : ℚ) ^ dp) : ℚ) / (10 : ℚ) ^ dp

/-- Python's `int(x)`: truncation toward zero. -/
def py_int (x : ℚ) : ℤ :=
  if 0 ≤ x then ⌊x⌋ else ⌈x⌉

/-- Largest element of a series (`pandas.Series.max`); `0` on an empty
series, which the callers below never rely on. -/
def series_max : List ℚ → ℚ
  | [] => 0
  | x :: xs => xs.foldl max x

/-- Smallest element of a series (`pandas.Series.min`). -/
def series_min : List ℚ → ℚ
  | [] => 0
  | x :: xs => xs.foldl min x

/-- Sum of a rational series. -/
def series_sum (l : List ℚ) : ℚ := l.foldl (· + ·) 0

/-- `statistics.median` of a nonempty integer list: middle element of the
sorted list, or the mean of the two middle elements. -/
def py_median (l : List ℤ) : ℚ :=
  let s := List.insertionSort (fun a b : ℤ => a ≤ b) l
  let n := s.length
  if n % 2 = 1 then (s.getD (n / 2) 0 : ℚ)
  else ((s.getD (n / 2 - 1) 0 : ℚ) + (s.getD (n / 2) 0 : ℚ)) / 2

/-- The application settings class of src/app/config.py.  Exactly the
fields declared there appear here with their declared defaults; the three
required fields have no default.  The options `min_float`, `max_float`,
`min_market_cap`, `max_market_cap`, `max_pct_change`, `max_extension_atr`,
`trading_capital`, `max_risk_percent` and `daily_profit_goal` read elsewhere
in the code are NOT fields of this class. -/
structure Settings where
  apca_api_key_id : String := ""
  apca_api_secret_key : String := ""
  apca_base_url : String := "https://paper-api.alpaca.markets"
  apca_data_url : String := "https://data.alpaca.markets"
  sendgrid_api_key : String
  from_email : String
  to_email : String
  min_price : ℚ := 5
  min_volume : ℤ := 1000000
  top_n_seed : ℤ := 100
  picks : ℤ := 5
  execution_window_minutes : ℤ := 2
  target_hour : ℤ := 8
  target_minute : ℤ := 40
  send_market_closed_email : Bool := false
  provider_name : String := "yfinance"
  data_delay_type : Option String := none
deriving DecidableEq, Repr

/-- Python attribute access `getattr(settings, name)` for the numeric
configuration options the pipeline reads.  Attributes defined on the
`Settings` class yield their value; every other name raises
`AttributeError`, which is what pydantic's `BaseSettings` does for an
undefined attribute (its `extra="ignore"` config discards unknown
environment variables instead of turning them into fields). -/
def settings_num_attr (s : Settings) : String → Except PyErr ℚ
  | "min_price" => .ok s.min_price
  | "min_volume" => .ok (s.min_volume : ℚ)
  | "top_n_seed" => .ok (s.top_n_seed : ℚ)
  | "picks" => .ok (s.picks : ℚ)
  | "execution_window_minutes" => .ok (s.execution_window_minutes : ℚ)
  | "target_hour" => .ok (s.target_hour : ℚ)
  | "target_minute" => .ok (s.target_minute : ℚ)
  | name => .error (.attributeError name)

/-- One OHLCV row of the 1-minute (or 5-minute) bars DataFrame.  `ts` is
the bar's timestamp in minutes; `bopen` is the `open` column. -/
structure Bar where
  ts : ℤ
  bopen : ℚ
  high : ℚ
  low : ℚ
  close : ℚ
  volume : ℤ
deriving DecidableEq, Repr

/-- `compute_vwap` (src/app/indicators.py): volume-weighted average of the
typical price `(high+low+close)/3`; `0.0` on empty input; the last close
when total volume is zero. -/
def compute_vwap (bars : List Bar) : ℚ :=
  if bars = [] then 0
  else
    let total_volume : ℤ := (bars.map (·.volume)).foldl (· + ·) 0
    if total_volume = 0 then (bars.getLast? ).getD ⟨0, 0, 0, 0, 0, 0⟩ |>.close
    else
      series_sum (bars.map (fun b => (b.high + b.low + b.close) / 3 * (b.volume : ℚ)))
        / (total_volume : ℚ)

/-- True-range series: the first bar contributes `high - low` (its
`prev_close` terms are NaN and drop out of the row-wise max); every later
bar contributes `max(high-low, |high-prev_close|, |low-prev_close|)`. -/
def true_ranges : List Bar → List ℚ
  | [] => []
  | b :: rest =>
    (b.high - b.low) :: true_ranges_from b rest
where
  true_ranges_from : Bar → List Bar → List ℚ
  | _, [] => []
  | prev, b :: rest =>
    max (b.high - b.low) (max |b.high - prev.close| |b.low - prev.close|)
      :: true_ranges_from b rest

/-- `compute_atr`: simple moving average of true range over the last
`period` bars (`rolling(period).mean().iloc[-1]`), or the mean of all true
ranges when fewer than `period` bars exist; `0.0` below 2 bars. -/
def compute_atr (bars : List Bar) (period : ℕ := 14) : ℚ :=
  if bars.length < 2 then 0
  else
    let trs := true_ranges bars
    if period ≤ trs.length then
      series_sum (trs.drop (trs.length - period)) / (period : ℚ)
    else
      series_sum trs / (trs.length : ℚ)

/-- `compute_hod`: maximum of the `high` column; `0.0` on empty input. -/
def compute_hod (bars : List Bar) : ℚ :=
  if bars = [] then 0 else series_max (bars.map (·.high))

/-- `compute_lod`: minimum of the `low` column; `0.0` on empty input. -/
def compute_lod (bars : List Bar) : ℚ :=
  if bars = [] then 0 else series_min (bars.map (·.low))

/-- `compute_or_levels`: opening-range high/low over the bars whose
timestamp lies in `[session_open, session_open + or_minutes)`, falling back
to the first `or_minutes` bars when that window is empty. -/
def compute_or_levels (bars : List Bar) (session_open : ℤ) (or_minutes : ℕ := 5) : ℚ × ℚ :=
  if bars = [] then (0, 0)
  else
    let or_bars := bars.filter
      (fun b => session_open ≤ b.ts ∧ b.ts < session_open + (or_minutes : ℤ))
    let or_bars := if or_bars = [] then bars.take or_minutes else or_bars
    if or_bars = [] then (0, 0)
    else (series_max (or_bars.map (·.high)), series_min (or_bars.map (·.low)))

/-- `compute_near_hod`: `last/hod` clamped to `[0,1]`; `0.0` when
`hod ≤ 0`. -/
def compute_near_hod (last hod : ℚ) : ℚ :=
  if hod ≤ 0 then 0 else max 0 (min 1 (last / hod))

/-- `detect_vwap_cross`: within the last `lookback` bars, some bar before
the final one closed below `vwap` and the final bar closes above it. -/
def detect_vwap_cross (bars : List Bar) (vwap : ℚ) (lookback : ℕ := 5) : Bool :=
  if bars.length < 2 then false
  else
    let recent := bars.drop (bars.length - lookback)
    if recent.length < 2 then false
    else
      let closes := recent.map (·.close)
      (closes.dropLast.any (fun c => c < vwap)) &&
        (decide ((closes.getLast?).getD 0 > vwap))

/-- `find_pullback_low`: the minimum low of the last `lookback` bars,
returned only when it sits strictly above `vwap`; requires at least
`lookback` bars. -/
def find_pullback_low (bars : List Bar) (vwap : ℚ) (lookback : ℕ := 5) : Option ℚ :=
  if bars.length < lookback then none
  else
    let recent := bars.drop (bars.length - lookback)
    let pullback_low := series_min (recent.map (·.low))
    if pullback_low > vwap then some pullback_low else none

/-- `compute_volume_so_far`: total volume of the bars. -/
def compute_volume_so_far (bars : List Bar) : ℤ :=
  (bars.map (·.volume)).foldl (· + ·) 0

/-- `compute_pct_change`: percent change versus a reference price; `0.0`
when the reference is not positive. -/
def compute_pct_change (current previous : ℚ) : ℚ :=
  if previous ≤ 0 then 0 else (current - previous) / previous * 100

/-- `compute_rvol`: session volume over the 20-day average when one is
known and positive, else over the cross-sectional median, else `1.0`. -/
def compute_rvol (volume_so_far : ℤ) (avg_daily_volume : Option ℚ)
    (median_volume : Option ℚ := none) : ℚ :=
  match avg_daily_volume with
  | some a =>
    if a > 0 then (volume_so_far : ℚ) / a
    else
      match median_volume with
      | some m => if m > 0 then (volume_so_far : ℚ) / m else 1
      | none => 1
  | none =>
    match median_volume with
    | some m => if m > 0 then (volume_so_far : ℚ) / m else 1
    | none => 1

/-- `get_last_price`: most recent close; `0.0` on empty input. -/
def get_last_price (bars : List Bar) : ℚ :=
  match bars.getLast? with
  | none => 0
  | some b => b.close

/-- A value stored in the indicator dictionary returned by
`compute_all_indicators`. -/
inductive IndVal where
  | q (x : ℚ)
  | i (x : ℤ)
  | b (x : Bool)
  | oq (x : Option ℚ)
  | bars (x : List Bar)
deriving DecidableEq, Repr

/-- `compute_all_indicators`: the Python dict literal returned at the end
of src/app/indicators.py, as an association list with exactly the keys the
source writes.  Neither an `"open_price"` nor a `"vs_open"` entry is ever
put in this dictionary. -/
def compute_all_indicators (bars : List Bar) (session_open : ℤ)
    (prev_close : Option ℚ := none) (or_minutes : ℕ := 5) (atr_period : ℕ := 14) :
    List (String × IndVal) :=
  let last := get_last_price bars
  let vwap := compute_vwap bars
  let hod := compute_hod bars
  let lod := compute_lod bars
  let near_hod := compute_near_hod last hod
  let volume_so_far := compute_volume_so_far bars
  let atr_1m := compute_atr bars atr_period
  let orhl := compute_or_levels bars session_open or_minutes
  let reference : Option ℚ :=
    match prev_close with
    | some r => some r
    | none => match bars.head? with | some b => some b.bopen | none => none
  let pct_change : ℚ :=
    match reference with
    | some r => if r = 0 then 0 else compute_pct_change last r
    | none => 0
  let vwap_cross := detect_vwap_cross bars vwap 5
  let pullback_low := find_pullback_low bars vwap 5
  [("last", .q last), ("vwap", .q vwap), ("hod", .q hod), ("lod", .q lod),
   ("near_hod", .q near_hod), ("volume_so_far", .i volume_so_far),
   ("atr_1m", .q atr_1m), ("pct_change", .q pct_change),
   ("orh", .q orhl.1), ("orl", .q orhl.2),
   ("vwap_cross", .b vwap_cross), ("pullback_low", .oq pullback_low),
   ("above_vwap", .b (decide (last > vwap))), ("bars", .bars bars)]

/-- `indicators[key]` read as a float. -/
def ind_q (d : List (String × IndVal)) (k : String) : ℚ :=
  match d.lookup k with
  | some (.q x) => x
  | _ => 0

/-- `indicators[key]` read as an int. -/
def ind_i (d : List (String × IndVal)) (k : String) : ℤ :=
  match d.lookup k with
  | some (.i x) => x
  | _ => 0

/-- `indicators[key]` read as a bool. -/
def ind_b (d : List (String × IndVal)) (k : String) : Bool :=
  match d.lookup k with
  | some (.b x) => x
  | _ => false

/-- `indicators[key]` read as an optional float. -/
def ind_oq (d : List (String × IndVal)) (k : String) : Option ℚ :=
  match d.lookup k with
  | some (.oq x) => x
  | _ => none

/-- `indicators.get(key, default)` for a float default: the default is
returned exactly when the key is absent. -/
def ind_get_q (d : List (String × IndVal)) (k : String) (dflt : ℚ) : ℚ :=
  match d.lookup k with
  | some (.q x) => x
  | _ => dflt

/-- The scoring intermediates and per-run extras that src/app/ranker.py and
src/app/scanner.py store in the candidate's open `metadata` dict, as a
closed record of optional entries (absent entry = key not in the dict). -/
@[ext]
structure ScoreMeta where
  bars : Option (List Bar) := none
  base_score : Option ℚ := none
  adjustment : Option ℚ := none
  final_score : Option ℚ := none
  pct_change_rank : Option ℚ := none
  rvol_rank : Option ℚ := none
  near_hod_rank : Option ℚ := none
  overextended_atr : Option ℚ := none
  fading_from_open : Option Bool := none
deriving DecidableEq, Repr

/-- The `Candidate` dataclass of src/app/scanner.py with its field
defaults. -/
@[ext]
structure Candidate where
  symbol : String
  last : ℚ := 0
  vwap : ℚ := 0
  hod : ℚ := 0
  lod : ℚ := 0
  near_hod : ℚ := 0
  volume_so_far : ℤ := 0
  atr_1m : ℚ := 0
  pct_change : ℚ := 0
  rvol : ℚ := 1
  orh : ℚ := 0
  orl : ℚ := 0
  above_vwap : Bool := false
  vwap_cross : Bool := false
  pullback_low : Option ℚ := none
  prev_close : Option ℚ := none
  source : String := ""
  type_unknown : Bool := true
  is_etf : Bool := false
  is_otc : Bool := false
  rejection_reason : Option String := none
  metadata : ScoreMeta := {}
  open_price : ℚ := 0
  vs_open : ℚ := 0
  is_green_since_open : Bool := true
  shares_float : Option ℤ := none
  market_cap : Option ℤ := none
deriving DecidableEq, Repr

/-- One row of a provider mover list. -/
structure Mover where
  symbol : String
  price : ℚ := 0
  change_percent : ℚ := 0
  volume : ℤ := 0
  source : String := ""
deriving DecidableEq, Repr

/-- The mapping returned by the provider's `get_metadata`; each entry is
optional because the scanner reads them with `dict.get` defaults. -/
structure MetaInfo where
  type_unknown : Option Bool := none
  is_etf : Option Bool := none
  is_otc : Option Bool := none
  avg_volume_20d : Option ℚ := none
  shares_float : Option ℤ := none
  market_cap : Option ℤ := none
deriving DecidableEq, Repr

/-- Loop body of `seed_candidates`: skip symbols already seen, append a
fresh candidate otherwise, and break once the candidate count reaches
`top_n_seed` (the check runs after the append, hence `remaining ≤ 1`). -/
def seed_go : List Mover → List String → ℤ → List Candidate
  | [], _, _ => []
  | m :: rest, seen, remaining =>
    if m.symbol ∈ seen then seed_go rest seen remaining
    else
      let c : Candidate :=
        { symbol := m.symbol, last := m.price, pct_change := m.change_percent,
          volume_so_far := m.volume, source := m.source }
      if remaining ≤ 1 then [c]
      else c :: seed_go rest (m.symbol :: seen) (remaining - 1)

/-- `seed_candidates` (src/app/scanner.py): deduplicate the provider's
movers by symbol, first occurrence winning, capped at `top_n_seed`. -/
def seed_candidates (movers : List Mover) (top_n_seed : ℤ := 100) : List Candidate :=
  seed_go movers [] top_n_seed

/-- Outcome of the filter loop body for one candidate: kept unchanged, or
rejected with its `rejection_reason` set. -/
inductive FilterStep where
  | keep (c : Candidate)
  | reject (c : Candidate)
deriving DecidableEq, Repr

/-- Mark a candidate rejected with the fixed text of the corresponding
f-string reason. -/
def reject_with (c : Candidate) (reason : String) : FilterStep :=
  .reject { c with rejection_reason := some reason }

/-- The float / market-cap / percent-change section of `filter_candidates`
(only executed when `apply_float_filters` is true).  Every settings
attribute this section reads (`min_float`, `max_float`, `min_market_cap`,
`max_market_cap`, `max_pct_change`) is undefined on `Settings`. -/
def filter_float_section (s : Settings) (c : Candidate) : Except PyErr FilterStep :=
  let cap_check : Except PyErr FilterStep :=
    match c.market_cap with
    | some mc =>
      match settings_num_attr s "min_market_cap" with
      | .error e => .error e
      | .ok min_mc =>
        if (mc : ℚ) < min_mc then .ok (reject_with c "Market cap below minimum")
        else
          match settings_num_attr s "max_market_cap" with
          | .error e => .error e
          | .ok max_mc =>
            if (mc : ℚ) > max_mc then
              .ok (reject_with c "Market cap above maximum (mega cap)")
            else
              match settings_num_attr s "max_pct_change" with
              | .error e => .error e
              | .ok mpc =>
                if c.pct_change > mpc then
                  .ok (reject_with c "Percent change above maximum (overextended)")
                else .ok (.keep c)
    | none =>
      match settings_num_attr s "max_pct_change" with
      | .error e => .error e
      | .ok mpc =>
        if c.pct_change > mpc then
          .ok (reject_with c "Percent change above maximum (overextended)")
        else .ok (.keep c)
  match c.shares_float with
  | some f =>
    match settings_num_attr s "min_float" with
    | .error e => .error e
    | .ok min_f =>
      if (f : ℚ) < min_f then .ok (reject_with c "Float below minimum (low float trap)")
      else
        match settings_num_attr s "max_float" with
        | .error e => .error e
        | .ok max_f =>
          if (f : ℚ) > max_f then .ok (reject_with c "Float above maximum (too heavy)")
          else cap_check
  | none => cap_check

/-- Loop body of `filter_candidates` for one candidate: price, volume, OTC
and ETF checks, then (post-enrichment only) the float section. -/
def filter_step (s : Settings) (min_price : ℚ) (min_volume : ℤ)
    (apply_float_filters : Bool) (c : Candidate) : Except PyErr FilterStep :=
  if c.last < min_price then .ok (reject_with c "Price below minimum")
  else if c.volume_so_far < min_volume then .ok (reject_with c "Volume below minimum")
  else if c.is_otc then .ok (reject_with c "OTC stock excluded")
  else if c.is_etf then .ok (reject_with c "ETF excluded")
  else if apply_float_filters then filter_float_section s c
  else .ok (.keep c)

/-- The filter loop over all candidates, appending to `passed` or
`rejected` in input order. -/
def filter_go (s : Settings) (min_price : ℚ) (min_volume : ℤ)
    (apply_float_filters : Bool) :
    List Candidate → Except PyErr (List Candidate × List Candidate)
  | [] => .ok ([], [])
  | c :: rest =>
    match filter_step s min_price min_volume apply_float_filters c with
    | .error e => .error e
    | .ok step =>
      match filter_go s min_price min_volume apply_float_filters rest with
      | .error e => .error e
      | .ok (p, r) =>
        match step with
        | .keep c2 => .ok (c2 :: p, r)
        | .reject c2 => .ok (p, c2 :: r)

/-- `filter_candidates` (src/app/scanner.py): the zero arguments default to
the settings values via Python's falsy `or`. -/
def filter_candidates (s : Settings) (candidates : List Candidate)
    (min_price : ℚ := 5) (min_volume : ℤ := 1000000)
    (apply_float_filters : Bool := true) :
    Except PyErr (List Candidate × List Candidate) :=
  let min_price := if min_price = 0 then s.min_price else min_price
  let min_volume := if min_volume = 0 then s.min_volume else min_volume
  filter_go s min_price min_volume apply_float_filters candidates

/-- Enrichment of a single candidate with nonempty bars: overwrite the
mover-feed fields with freshly computed indicator values, provider
metadata, and the RVOL fallback, exactly in the order of the source. -/
def enrich_one (c : Candidate) (bars : List Bar) (prev_close : Option ℚ)
    (median_vol : Option ℚ) (md : MetaInfo) (session_open : ℤ) : Candidate :=
  let ind := compute_all_indicators bars session_open prev_close 5 14
  let last := ind_q ind "last"
  let open_price := ind_get_q ind "open_price" 0
  let volume_so_far := ind_i ind "volume_so_far"
  { c with
    last := last,
    vwap := ind_q ind "vwap",
    hod := ind_q ind "hod",
    lod := ind_q ind "lod",
    near_hod := ind_q ind "near_hod",
    volume_so_far := volume_so_far,
    atr_1m := ind_q ind "atr_1m",
    pct_change := ind_q ind "pct_change",
    orh := ind_q ind "orh",
    orl := ind_q ind "orl",
    above_vwap := ind_b ind "above_vwap",
    vwap_cross := ind_b ind "vwap_cross",
    pullback_low := ind_oq ind "pullback_low",
    prev_close := prev_close,
    open_price := open_price,
    vs_open := ind_get_q ind "vs_open" 0,
    is_green_since_open := if open_price > 0 then decide (last > open_price) else true,
    rvol := compute_rvol volume_so_far md.avg_volume_20d median_vol,
    type_unknown := md.type_unknown.getD true,
    is_etf := md.is_etf.getD false,
    is_otc := md.is_otc.getD false,
    shares_float := md.shares_float,
    market_cap := md.market_cap,
    metadata := { c.metadata with bars := some bars } }

/-- Per-candidate loop of `enrich_candidates`: a candidate whose symbol has
no bars, or empty bars, is skipped (dropped without a rejection reason). -/
def enrich_go (bars_dict : List (String × List Bar))
    (prev_closes : List (String × ℚ)) (median_vol : Option ℚ)
    (meta : String → MetaInfo) (session_open : ℤ) :
    List Candidate → List Candidate
  | [] => []
  | c :: rest =>
    match bars_dict.lookup c.symbol with
    | none => enrich_go bars_dict prev_closes median_vol meta session_open rest
    | some bars =>
      if bars = [] then enrich_go bars_dict prev_closes median_vol meta session_open rest
      else
        enrich_one c bars (prev_closes.lookup c.symbol) median_vol (meta c.symbol)
          session_open
          :: enrich_go bars_dict prev_closes median_vol meta session_open rest

/-- `enrich_candidates` (src/app/scanner.py): the 1-minute batch is used
unless it came back entirely empty, in which case the 5-minute batch is the
fallback; the cross-sectional median of positive seed volumes is the RVOL
fallback reference. -/
def enrich_candidates (candidates : List Candidate)
    (bars_1m bars_5m : List (String × List Bar))
    (prev_closes : List (String × ℚ)) (meta : String → MetaInfo)
    (session_open : ℤ) : List Candidate :=
  if candidates = [] then []
  else
    let bars_dict := if bars_1m = [] then bars_5m else bars_1m
    let volumes := (candidates.filter (fun c => 0 < c.volume_so_far)).map (·.volume_so_far)
    let median_vol : Option ℚ := if volumes = [] then none else some (py_median volumes)
    enrich_go bars_dict prev_closes median_vol meta session_open candidates

/-- `run_scan` (src/app/scanner.py): seed, pre-filter without the float
section, enrich, re-filter with it, and return the survivors together with
the concatenation of both rejection lists. -/
def run_scan (s : Settings) (movers : List Mover)
    (bars_1m bars_5m : List (String × List Bar))
    (prev_closes : List (String × ℚ)) (meta : String → MetaInfo)
    (session_open : ℤ) : Except PyErr (List Candidate × List Candidate) :=
  let candidates := seed_candidates movers s.top_n_seed
  match filter_candidates s candidates s.min_price s.min_volume false with
  | .error e => .error e
  | .ok (passed, rejected) =>
    let enriched := enrich_candidates passed bars_1m bars_5m prev_closes meta session_open
    match filter_candidates s enriched s.min_price s.min_volume true with
    | .error e => .error e
    | .ok (final_passed, newly_rejected) =>
      .ok (final_passed, rejected ++ newly_rejected)

/-- Comparison used to sort the `(original_index, value)` pairs of
`rank_normalize` by value (`sorted(indexed, key=lambda x: x[1])`). -/
def le_val (a b : ℕ × ℚ) : Prop := a.2 ≤ b.2

instance : DecidableRel le_val :=
  fun a b => inferInstanceAs (Decidable (a.2 ≤ b.2))

instance : IsTotal (ℕ × ℚ) le_val := ⟨fun a b => le_total a.2 b.2⟩

instance : IsTrans (ℕ × ℚ) le_val := ⟨fun _ _ _ h1 h2 => le_trans h1 h2⟩

/-- The tie-handling while loop of `rank_normalize` over the sorted
`(original_index, value)` pairs: each maximal run of equal values occupying
sorted positions `i ≤ k < j` is assigned the average rank `(i + j - 1) / 2`.
The loop advances `i` to `j` each iteration, so it runs at most `length`
times; `fuel` (always instantiated with the list length) makes that bound
explicit. -/
def rank_pairs_go : ℕ → ℕ → List (ℕ × ℚ) → List (ℕ × ℚ)
  | _, _, [] => []
  | 0, _, _ :: _ => []
  | fuel + 1, i, (idx, v) :: rest =>
    let grp := (idx, v) :: rest.takeWhile (fun p => p.2 = v)
    let rest2 := rest.dropWhile (fun p => p.2 = v)
    let j := i + grp.length
    let avg : ℚ := ((i : ℚ) + (j : ℚ) - 1) / 2
    grp.map (fun p => (p.1, avg)) ++ rank_pairs_go fuel j rest2

/-- `rank_normalize` (src/app/ranker.py): each value is replaced by its
fractional rank `avg_rank / (n - 1)`; ties share the average rank of their
group; a single value maps to `[0.5]`, the empty list to `[]`.  The
`sorted` builtin is modelled by a stable insertion sort. -/
def rank_normalize (values : List ℚ) : List ℚ :=
  let n := values.length
  if n = 0 then []
  else if n = 1 then [1/2]
  else
    let indexed := values.enum
    let sorted_indexed := List.insertionSort le_val indexed
    let pairs := rank_pairs_go sorted_indexed.length 0 sorted_indexed
    pairs.foldl (fun acc p => acc.set p.1 (p.2 / ((n : ℚ) - 1))) (List.replicate n 0)

/-- VWAP position bonus/penalty of `compute_scores`: `+0.05` above VWAP,
`−0.10` below, nothing when exactly at it. -/
def vwap_adjustment (c : Candidate) : ℚ :=
  if c.last > c.vwap then 5/100
  else if c.last < c.vwap then -(10/100)
  else 0

/-- ATR-based overextension block of `compute_scores`: when
`vwap > 0` and `atr_1m > 0` it compares `(last - vwap)/atr_1m` against
`settings.max_extension_atr` — an attribute `Settings` does not define, so
reaching this branch raises `AttributeError`.  On the penalty path the
rounded extension would also be recorded in the metadata. -/
def atr_extension_check (s : Settings) (c : Candidate) :
    Except PyErr (ℚ × Option ℚ) :=
  if c.vwap > 0 ∧ c.atr_1m > 0 then
    let atr_above_vwap := (c.last - c.vwap) / c.atr_1m
    match settings_num_attr s "max_extension_atr" with
    | .error e => .error e
    | .ok threshold =>
      if atr_above_vwap > threshold then
        .ok (-(8/100), some (round_to 2 atr_above_vwap))
      else .ok (0, none)
  else .ok (0, none)

/-- Tiered extreme-gainer penalty of `compute_scores`: highest tier only. -/
def extreme_gainer_adjustment (c : Candidate) : ℚ :=
  if c.pct_change > 40 then -(12/100)
  else if c.pct_change > 30 then -(8/100)
  else if c.pct_change > 20 then -(4/100)
  else 0

/-- Gap-and-fade penalty of `compute_scores` together with the
`fading_from_open` metadata flag it sets on the deep-fade branch. -/
def fade_adjustment (c : Candidate) : ℚ × Option Bool :=
  if c.vs_open < -2 then (-(10/100), some true)
  else if c.vs_open < 0 then (-(3/100), none)
  else (0, none)

/-- Strong-continuation bonus of `compute_scores`. -/
def continuation_bonus (c : Candidate) : ℚ :=
  if c.is_green_since_open ∧ c.near_hod ≥ 98/100 then 5/100 else 0

/-- The success path of `score_one`: base score, additive adjustments,
clamp to `[0,1]`, and the metadata stores (each rounded to four decimals,
as the source does), given the ATR block's adjustment and optional
overextension record. -/
def score_apply (pr rr nr atr_adj : ℚ) (overext : Option ℚ) (c : Candidate) :
    Candidate :=
  let base_score := (40/100) * pr + (35/100) * rr + (25/100) * nr
  let fade := fade_adjustment c
  let adjustment :=
    vwap_adjustment c + atr_adj + extreme_gainer_adjustment c + fade.1 +
      continuation_bonus c
  let final_score := max 0 (min 1 (base_score + adjustment))
  { c with metadata :=
    { c.metadata with
      base_score := some (round_to 4 base_score),
      adjustment := some (round_to 4 adjustment),
      final_score := some (round_to 4 final_score),
      pct_change_rank := some (round_to 4 pr),
      rvol_rank := some (round_to 4 rr),
      near_hod_rank := some (round_to 4 nr),
      overextended_atr :=
        match overext with
        | some v => some v
        | none => c.metadata.overextended_atr,
      fading_from_open :=
        match fade.2 with
        | some b => some b
        | none => c.metadata.fading_from_open } }

/-- Scoring of one candidate given its three rank fractions: the ATR
extension block (which can raise), then the pure scoring update. -/
def score_one (s : Settings) (pr rr nr : ℚ) (c : Candidate) :
    Except PyErr Candidate :=
  match atr_extension_check s c with
  | .error e => .error e
  | .ok (atr_adj, overext) => .ok (score_apply pr rr nr atr_adj overext c)

/-- The scoring loop of `compute_scores` over the candidate list, pairing
candidate `i` with the `i`-th entry of each rank list. -/
def score_list (s : Settings) (prs rrs nrs : List ℚ) :
    ℕ → List Candidate → Except PyErr (List Candidate)
  | _, [] => .ok []
  | i, c :: rest =>
    match score_one s (prs.getD i 0) (rrs.getD i 0) (nrs.getD i 0) c with
    | .error e => .error e
    | .ok c2 =>
      match score_list s prs rrs nrs (i + 1) rest with
      | .error e => .error e
      | .ok rest2 => .ok (c2 :: rest2)

/-- `compute_scores` (src/app/ranker.py): rank-normalize `pct_change`,
`rvol` and `near_hod` across the candidate set, then score each candidate;
the empty list returns immediately. -/
def compute_scores (s : Settings) (candidates : List Candidate) :
    Except PyErr (List Candidate) :=
  if candidates = [] then .ok []
  else
    let pct_change_ranks := rank_normalize (candidates.map (·.pct_change))
    let rvol_ranks := rank_normalize (candidates.map (·.rvol))
    let near_hod_ranks := rank_normalize (candidates.map (·.near_hod))
    score_list s pct_change_ranks rvol_ranks near_hod_ranks 0 candidates

/-- The four setup classifications of src/app/levels.py. -/
inductive SetupType where
  | orb_breakout
  | vwap_reclaim
  | first_pullback
  | no_clean_setup
deriving DecidableEq, Repr

/-- The `TradeLevels` dataclass of src/app/levels.py. -/
structure TradeLevels where
  setup_type : SetupType
  buy_area : Option (ℚ × ℚ)
  stop : Option ℚ
  target_1 : Option ℚ
  target_2 : Option ℚ
  target_3 : Option ℚ
  risk_reward : Option ℚ
  explanation : String := ""
  risk_flags : List String := []
deriving DecidableEq, Repr

/-- `compute_risk_flags` (src/app/levels.py).  The float and market-cap
flags use Python truthiness (`if candidate.shares_float and ...`), so a
present value of `0` raises no flag. -/
def compute_risk_flags (candidate : Candidate) : List String :=
  (if ¬candidate.above_vwap then ["below_vwap"] else []) ++
  (if candidate.vwap > 0 ∧ candidate.atr_1m > 0 ∧
      (candidate.last - candidate.vwap) / candidate.atr_1m > 2 then
    ["overextended_atr"] else []) ++
  (if candidate.near_hod < 97/100 then ["not_near_hod"] else []) ++
  (if candidate.volume_so_far < 500000 then ["low_volume"] else []) ++
  (if ¬candidate.is_green_since_open then ["fading_from_open"] else []) ++
  (if candidate.pct_change > 30 then ["extreme_gainer"] else []) ++
  (match candidate.shares_float with
   | some f => if f ≠ 0 ∧ f < 10000000 then ["low_float"] else []
   | none => []) ++
  (match candidate.market_cap with
   | some mc => if mc ≠ 0 ∧ mc > 20000000000 then ["large_cap"] else []
   | none => [])

/-- `classify_setup` (src/app/levels.py): priority-ordered rules, first
match wins: ORB Breakout, then VWAP Reclaim, then First Pullback (with the
1 percent minimum pullback depth), then the fallback. -/
def classify_setup (c : Candidate) : SetupType :=
  if c.last ≥ c.orh ∧ c.last > c.vwap ∧ c.near_hod ≥ 98/100 ∧ c.orh > 0 ∧
      c.is_green_since_open then
    .orb_breakout
  else if c.last > c.vwap ∧ c.vwap_cross then
    .vwap_reclaim
  else
    match c.pullback_low with
    | some pb =>
      if c.last > c.vwap ∧ c.near_hod ≥ 97/100 ∧ pb > c.vwap ∧
          c.is_green_since_open then
        if c.hod > 0 ∧ (c.hod - pb) / c.hod ≥ 1/100 then .first_pullback
        else .no_clean_setup
      else .no_clean_setup
    | none => .no_clean_setup

/-- `compute_orb_breakout_levels`: buy `[orh, orh + 0.15 atr]`, stop
`min(vwap, orl) − 0.10 atr`, targets `entry + 1R`, `entry + 2R`,
`max(hod + 0.50 atr, entry + 2.5R)`. -/
def compute_orb_breakout_levels (candidate : Candidate) (atr : ℚ) : TradeLevels :=
  let orh := candidate.orh
  let orl := candidate.orl
  let vwap := candidate.vwap
  let hod := candidate.hod
  let buy_low := orh
  let buy_high := orh + (15/100) * atr
  let stop := min vwap orl - (10/100) * atr
  let entry := (buy_low + buy_high) / 2
  let risk := entry - stop
  { setup_type := .orb_breakout,
    buy_area := some (buy_low, buy_high),
    stop := some stop,
    target_1 := some (entry + risk),
    target_2 := some (entry + 2 * risk),
    target_3 := some (max (hod + (50/100) * atr) (entry + (5/2) * risk)),
    risk_reward := some 1,
    explanation := "ORB Breakout: price broke above the opening range high.",
    risk_flags := compute_risk_flags candidate }

/-- `compute_vwap_reclaim_levels`: buy `[vwap, vwap + 0.20 atr]`, stop
`vwap − 0.25 atr`, targets `entry + 1R`, `entry + 2R`, and HOD retest when
still below HOD, else `entry + 2.5R`. -/
def compute_vwap_reclaim_levels (candidate : Candidate) (atr : ℚ) : TradeLevels :=
  let vwap := candidate.vwap
  let hod := candidate.hod
  let last := candidate.last
  let buy_low := vwap
  let buy_high := vwap + (20/100) * atr
  let stop := vwap - (25/100) * atr
  let entry := (buy_low + buy_high) / 2
  let risk := entry - stop
  { setup_type := .vwap_reclaim,
    buy_area := some (buy_low, buy_high),
    stop := some stop,
    target_1 := some (entry + risk),
    target_2 := some (entry + 2 * risk),
    target_3 := some (if last < hod then hod else entry + (5/2) * risk),
    risk_reward := some 1,
    explanation := "VWAP Reclaim: price reclaimed VWAP from below.",
    risk_flags := compute_risk_flags candidate }

/-- `compute_first_pullback_levels`: buy
`[pb + 0.10 atr, pb + 0.30 atr]`, stop `pb − 0.20 atr`, targets
`entry + 1R`, `entry + 2R`, `hod + 0.25 atr`; `pb` falls back to the LOD
when `pullback_low` is somehow absent. -/
def compute_first_pullback_levels (candidate : Candidate) (atr : ℚ) : TradeLevels :=
  let pullback_low :=
    match candidate.pullback_low with
    | some pb => pb
    | none => candidate.lod
  let hod := candidate.hod
  let buy_low := pullback_low + (10/100) * atr
  let buy_high := pullback_low + (30/100) * atr
  let stop := pullback_low - (20/100) * atr
  let entry := (buy_low + buy_high) / 2
  let risk := entry - stop
  { setup_type := .first_pullback,
    buy_area := some (buy_low, buy_high),
    stop := some stop,
    target_1 := some (entry + risk),
    target_2 := some (entry + 2 * risk),
    target_3 := some (hod + (25/100) * atr),
    risk_reward := some 1,
    explanation := "First Pullback: trend continuation from the pullback low.",
    risk_flags := compute_risk_flags candidate }

/-- `compute_fallback_levels`: no entry below VWAP; above it a conservative
`[vwap, vwap + 0.15 atr]` zone with 1R/2R targets only. -/
def compute_fallback_levels (candidate : Candidate) (atr : ℚ) : TradeLevels :=
  let vwap := candidate.vwap
  let last := candidate.last
  let flags := compute_risk_flags candidate
  if last ≤ vwap then
    { setup_type := .no_clean_setup,
      buy_area := none, stop := none,
      target_1 := none, target_2 := none, target_3 := none,
      risk_reward := none,
      explanation := "No clean setup: price below VWAP.",
      risk_flags := flags }
  else
    let buy_low := vwap
    let buy_high := vwap + (15/100) * atr
    let stop := vwap - (25/100) * atr
    let entry := (buy_low + buy_high) / 2
    let risk := entry - stop
    { setup_type := .no_clean_setup,
      buy_area := some (buy_low, buy_high),
      stop := some stop,
      target_1 := some (entry + risk),
      target_2 := some (entry + 2 * risk),
      target_3 := none,
      risk_reward := some 1,
      explanation := "No clean setup: conservative VWAP-based entry.",
      risk_flags := flags }

/-- The effective ATR of `compute_levels`: `atr_1m`, replaced by
`last * 0.001` when it is not positive. -/
def atr_eff (candidate : Candidate) : ℚ :=
  if candidate.atr_1m ≤ 0 then candidate.last * (1/1000) else candidate.atr_1m

/-- `compute_levels` (src/app/levels.py): classify, then dispatch to the
matching level calculator with the effective ATR. -/
def compute_levels (candidate : Candidate) : TradeLevels :=
  let atr := atr_eff candidate
  match classify_setup candidate with
  | .orb_breakout => compute_orb_breakout_levels candidate atr
  | .vwap_reclaim => compute_vwap_reclaim_levels candidate atr
  | .first_pullback => compute_first_pullback_levels candidate atr
  | .no_clean_setup => compute_fallback_levels candidate atr

/-- The `PositionSize` dataclass of src/app/levels.py (the one used by the
effective, second `compute_position_sizing` definition). -/
structure PositionSize where
  capital : ℚ
  shares : ℤ
  entry_price : ℚ
  stop_price : ℚ
  risk_per_share : ℚ
  total_risk : ℚ
  max_risk_percent : ℚ
  profit_t1 : ℚ
  profit_t2 : ℚ
  profit_t3 : Option ℚ
  daily_goal : ℚ
  meets_daily_goal : Bool
deriving DecidableEq, Repr

/-- The effective `compute_position_sizing` of src/app/levels.py
(lines 538–608; it shadows the earlier definition of the same name).  The
guard `if not levels.buy_area or not levels.stop` is Python truthiness, so
a present stop of `0.0` returns `None`; past that guard the function reads
`settings.trading_capital`, `settings.max_risk_percent` and
`settings.daily_profit_goal`, none of which `Settings` defines. -/
def compute_position_sizing (s : Settings) (levels : TradeLevels) :
    Except PyErr (Option PositionSize) :=
  let buy_falsy := levels.buy_area.isNone
  let stop_falsy :=
    match levels.stop with
    | none => true
    | some v => decide (v = 0)
  if buy_falsy || stop_falsy then .ok none
  else
    match settings_num_attr s "trading_capital" with
    | .error e => .error e
    | .ok capital =>
      match settings_num_attr s "max_risk_percent" with
      | .error e => .error e
      | .ok max_risk_pct =>
        match settings_num_attr s "daily_profit_goal" with
        | .error e => .error e
        | .ok daily_goal =>
          let ba := levels.buy_area.getD (0, 0)
          let entry := (ba.1 + ba.2) / 2
          let stop := levels.stop.getD 0
          let risk_per_share := entry - stop
          if risk_per_share ≤ 0 then .ok none
          else
            let max_risk_dollars := capital * (max_risk_pct / 100)
            let shares := py_int (max_risk_dollars / risk_per_share)
            let max_shares_by_capital := py_int (capital / entry)
            let shares := min shares max_shares_by_capital
            if shares ≤ 0 then .ok none
            else
              let total_risk := (shares : ℚ) * risk_per_share
              let profit_t1 :=
                match levels.target_1 with
                | some t => if t = 0 then 0 else (shares : ℚ) * (t - entry)
                | none => 0
              let profit_t2 :=
                match levels.target_2 with
                | some t => if t = 0 then 0 else (shares : ℚ) * (t - entry)
                | none => 0
              let profit_t3 :=
                match levels.target_3 with
                | some t => if t = 0 then none else some ((shares : ℚ) * (t - entry))
                | none => none
              .ok (some
                { capital := capital,
                  shares := shares,
                  entry_price := entry,
                  stop_price := stop,
                  risk_per_share := risk_per_share,
                  total_risk := total_risk,
                  max_risk_percent := max_risk_pct,
                  profit_t1 := profit_t1,
                  profit_t2 := profit_t2,
                  profit_t3 := profit_t3,
                  daily_goal := daily_goal,
                  meets_daily_goal := decide (profit_t1 ≥ daily_goal) })

/-- A settings instance supplying only the three required (environment)
fields, leaving every optional field at its declared default. -/
def test_settings : Settings :=
  { sendgrid_api_key := "key", from_email := "from", to_email := "to" }

/-- A `TradeLevels` value with a present buy area and a present, nonzero
stop, as every setup branch with an entry produces. -/
def c7_levels : TradeLevels :=
  { setup_type := .orb_breakout, buy_area := some (10, 11), stop := some (19/2),
    target_1 := some 12, target_2 := some 13, target_3 := none,
    risk_reward := some 1 }

/-- A candidate meeting the ORB Breakout and the VWAP Reclaim conditions
simultaneously. -/
def c6_cand : Candidate :=
  { symbol := "BOTH", last := 101, vwap := 99, hod := 101, near_hod := 1,
    orh := 100, orl := 98, atr_1m := 1/2, vwap_cross := true }

def c2_cand : Candidate :=
  { symbol := "VWPR", last := 21/2, vwap := 10, hod := 53/5, lod := 10,
    near_hod := 9/10, orh := 0, orl := 0, atr_1m := 1, vwap_cross := true }

def c2_orb_cand : Candidate :=
  { symbol := "ORBB", last := 101, vwap := 99, hod := 101, near_hod := 1,
    orh := 100, orl := 98, atr_1m := 1/2 }

def c3_cand : Candidate := { symbol := "AAA" }

def c3_bar : Bar := ⟨0, 10, 10, 10, 10, 100⟩

/-- Candidate used by the idempotence witness. -/
def c9_cand : Candidate := { symbol := "IDEM" }

/-- Candidate `c9_cand` after one scoring pass (every rank is `0.5` for a
single-element list, so the base score is `0.5` and no adjustment
applies). -/
def c9_scored : Candidate :=
  { symbol := "IDEM", metadata :=
    { base_score := some (1/2), adjustment := some 0, final_score := some (1/2),
      pct_change_rank := some (1/2), rvol_rank := some (1/2),
      near_hod_rank := some (1/2) } }

/-- A realistic enriched candidate: above VWAP with a positive 1-minute
ATR, which is exactly the guard of the ATR overextension block. -/
def c5_cand : Candidate := { symbol := "EXT", last := 10, vwap := 1, atr_1m := 1 }

/-- A mover that passes the pre-filter (price 10, volume 2,000,000). -/
def c4_mover : Mover :=
  { symbol := "AAA", price := 10, change_percent := 5, volume := 2000000,
    source := "gainers" }

/-- One session bar for the mover's symbol. -/
def c4_bar : Bar := ⟨0, 10, 10, 10, 10, 2000000⟩

/-- Provider metadata reporting a 30-billion-dollar market cap, above any
sensible `max_market_cap` bound. -/
def c4_meta : MetaInfo := { market_cap := some 30000000000 }

/-- Number of entries of an indexed pair list whose value is strictly
below `v`.  In a value-sorted list this is the first sorted position of the
tie group of `v`. -/
def cnt_lt (l : List (ℕ × ℚ)) (v : ℚ) : ℕ :=
  l.countP (fun p => decide (p.2 < v))

/-- Number of entries of an indexed pair list whose value equals `v` (the
size of the tie group of `v`). -/
def cnt_eq (l : List (ℕ × ℚ)) (v : ℚ) : ℕ :=
  l.countP (fun p => decide (p.2 = v))

/-- Number of values strictly below `v` in a plain value list. -/
def val_lt (values : List ℚ) (v : ℚ) : ℕ :=
  values.countP (fun x => decide (x < v))

/-- Number of values equal to `v` in a plain value list. -/
def val_eq (values : List ℚ) (v : ℚ) : ℕ :=
  values.countP (fun x => decide (x = v))

/-- Claim C1: of the thirteen configuration options the spec lists as
recognized, only `min_price`, `min_volume`, `top_n_seed` and `picks` are
fields of the loaded `Settings` object; reading each of the other nine
raises `AttributeError`, so the post-enrichment filter, the ATR
overextension penalty in scoring, and position sizing cannot read them
without error.  This refutes the claim that all thirteen reads succeed. -/
theorem settings_recognized_options_check (s : Settings) :
    settings_num_attr s "min_price" = .ok s.min_price ∧
    settings_num_attr s "min_volume" = .ok (s.min_volume : ℚ) ∧
    settings_num_attr s "top_n_seed" = .ok (s.top_n_seed : ℚ) ∧
    settings_num_attr s "picks" = .ok (s.picks : ℚ) ∧
    settings_num_attr s "min_float" = .error (.attributeError "min_float") ∧
    settings_num_attr s "max_float" = .error (.attributeError "max_float") ∧
    settings_num_attr s "min_market_cap" = .error (.attributeError "min_market_cap") ∧
    settings_num_attr s "max_market_cap" = .error (.attributeError "max_market_cap") ∧
    settings_num_attr s "max_pct_change" = .error (.attributeError "max_pct_change") ∧
    settings_num_attr s "max_extension_atr" = .error (.attributeError "max_extension_atr") ∧
    settings_num_attr s "trading_capital" = .error (.attributeError "trading_capital") ∧
    settings_num_attr s "max_risk_percent" = .error (.attributeError "max_risk_percent") ∧
    settings_num_attr s "daily_profit_goal" = .error (.attributeError "daily_profit_goal") :=
  ⟨rfl, rfl, rfl, rfl, rfl, rfl, rfl, rfl, rfl, rfl, rfl, rfl, rfl⟩

/-- Claim C7: for a `TradeLevels` with present buy area and stop and
positive risk per share, the claim says `compute_position_sizing` returns a
sizing with the computed share count; the effective definition instead
raises `AttributeError` as soon as it reads `settings.trading_capital`,
because `Settings` defines no such field. -/
theorem compute_position_sizing_raises (s : Settings) :
    compute_position_sizing s c7_levels = .error (.attributeError "trading_capital") := by
  have hstop : ((19 : ℚ)/2 = 0) = False := by norm_num
  simp [compute_position_sizing, c7_levels, hstop, settings_num_attr]

/-- Claim C10: whenever `buy_area` is present and `stop` is present but
exactly `0.0`, the effective `compute_position_sizing` returns `None`: the
guard tests `stop` for truthiness, not presence, and a float `0.0` is
falsy — even though the risk per share `entry - 0.0` would be positive for
a positive entry. -/
theorem position_sizing_zero_stop_none (s : Settings) (levels : TradeLevels)
    (ba : ℚ × ℚ) (hba : levels.buy_area = some ba) (hstop : levels.stop = some 0) :
    compute_position_sizing s levels = .ok none := by
  simp [compute_position_sizing, hba, hstop]

/-- Witness for claim C10 at a concrete `TradeLevels` value. -/
theorem position_sizing_zero_stop_none_witness :
    compute_position_sizing test_settings
      { setup_type := .no_clean_setup, buy_area := some (10, 11), stop := some 0,
        target_1 := some 12, target_2 := some 13, target_3 := none,
        risk_reward := some 1 } = .ok none :=
  position_sizing_zero_stop_none test_settings _ (10, 11) rfl rfl

/-- Claim C6: `classify_setup` evaluates its rules in fixed priority order
with first match winning — a candidate satisfying both the ORB Breakout
condition and the VWAP Reclaim condition classifies as ORB Breakout. -/
theorem classify_setup_priority_orb (c : Candidate)
    (h1 : c.last ≥ c.orh) (h2 : c.last > c.vwap) (h3 : c.near_hod ≥ 98/100)
    (h4 : c.orh > 0) (h5 : c.is_green_since_open = true)
    (_h6 : c.vwap_cross = true) :
    classify_setup c = .orb_breakout := by
  unfold classify_setup
  rw [if_pos ⟨h1, h2, h3, h4, by simp [h5]⟩]

/-- Witness for claim C6 at a concrete candidate. -/
theorem classify_setup_priority_orb_witness :
    classify_setup c6_cand = .orb_breakout :=
  classify_setup_priority_orb c6_cand (by norm_num [c6_cand]) (by norm_num [c6_cand])
    (by norm_num [c6_cand]) (by norm_num [c6_cand]) rfl rfl

theorem levels_target_order_counterexample :
    (compute_levels c2_cand).buy_area.isSome = true ∧
    (compute_levels c2_cand).target_2 = some (54/5) ∧
    (compute_levels c2_cand).target_3 = some (53/5) ∧
    ¬ ((54 : ℚ)/5 ≤ 53/5) := by
  have hcl : classify_setup c2_cand = .vwap_reclaim := by
    norm_num [classify_setup, c2_cand]
  simp only [compute_levels, hcl]
  refine ⟨?_, ?_, ?_, by norm_num⟩ <;>
    norm_num [compute_vwap_reclaim_levels, atr_eff, c2_cand]

theorem levels_target_order_amended (c : Candidate)
    (hbuy : (compute_levels c).buy_area.isSome = true)
    (hatr : 0 < atr_eff c)
    (horb : classify_setup c = .orb_breakout → min c.vwap c.orl ≤ c.orh) :
    ∃ t1 t2, (compute_levels c).target_1 = some t1 ∧
      (compute_levels c).target_2 = some t2 ∧ t1 < t2 ∧
      ∀ t3, classify_setup c = .orb_breakout →
        (compute_levels c).target_3 = some t3 → t2 ≤ t3 := by
  rcases hcl : classify_setup c with _ | _ | _ | _
  · -- ORB Breakout
    have hmin := horb hcl
    simp only [compute_levels, hcl, compute_orb_breakout_levels]
    refine ⟨_, _, rfl, rfl, by linarith, ?_⟩
    intro t3 _ h3
    have ht3 : t3 = max (c.hod + 50/100 * atr_eff c)
        ((c.orh + (c.orh + 15/100 * atr_eff c)) / 2 +
          5/2 * ((c.orh + (c.orh + 15/100 * atr_eff c)) / 2 -
            (min c.vwap c.orl - 10/100 * atr_eff c))) := by
      injection h3 with h3; exact h3.symm
    rw [ht3]
    refine le_max_of_le_right ?_
    linarith
  · -- VWAP Reclaim
    simp only [compute_levels, hcl, compute_vwap_reclaim_levels]
    refine ⟨_, _, rfl, rfl, by linarith, ?_⟩
    intro t3 horb2 _
    exact absurd horb2 (by decide)
  · -- First Pullback
    simp only [compute_levels, hcl, compute_first_pullback_levels]
    refine ⟨_, _, rfl, rfl, by linarith, ?_⟩
    intro t3 horb2 _
    exact absurd horb2 (by decide)
  · -- Fallback
    simp only [compute_levels, hcl, compute_fallback_levels] at hbuy ⊢
    by_cases hlv : c.last ≤ c.vwap
    · rw [if_pos hlv] at hbuy
      simp at hbuy
    · rw [if_neg hlv] at hbuy ⊢
      refine ⟨_, _, rfl, rfl, by linarith, ?_⟩
      intro t3 horb2 _
      exact absurd horb2 (by decide)

theorem levels_target_order_amended_witness :
    ∃ t1 t2, (compute_levels c2_orb_cand).target_1 = some t1 ∧
      (compute_levels c2_orb_cand).target_2 = some t2 ∧ t1 < t2 ∧
      ∀ t3, classify_setup c2_orb_cand = .orb_breakout →
        (compute_levels c2_orb_cand).target_3 = some t3 → t2 ≤ t3 :=
  levels_target_order_amended c2_orb_cand
    (by norm_num [compute_levels, classify_setup, compute_orb_breakout_levels,
      atr_eff, c2_orb_cand])
    (by norm_num [atr_eff, c2_orb_cand])
    (fun _ => by norm_num [c2_orb_cand])

/-- Helper: `dict.get` returns its default exactly when the key is
absent. -/
theorem ind_get_q_of_lookup_none (d : List (String × IndVal)) (k : String)
    (dflt : ℚ) (h : d.lookup k = none) : ind_get_q d k dflt = dflt := by
  unfold ind_get_q
  rw [h]

/-- Helper: the dictionary built by `compute_all_indicators` has no
`"open_price"` and no `"vs_open"` entry. -/
theorem compute_all_indicators_no_open_keys (bars : List Bar) (session_open : ℤ)
    (prev_close : Option ℚ) (or_minutes atr_period : ℕ) :
    (compute_all_indicators bars session_open prev_close or_minutes
        atr_period).lookup "open_price" = none ∧
    (compute_all_indicators bars session_open prev_close or_minutes
        atr_period).lookup "vs_open" = none := by
  constructor <;> simp [compute_all_indicators, List.lookup]

/-- Helper: enrichment leaves `open_price` at `0.0`, `vs_open` at `0.0`
and `is_green_since_open` at `True` for every candidate it outputs. -/
theorem enrich_go_open_fields (bd : List (String × List Bar))
    (pcs : List (String × ℚ)) (mv : Option ℚ) (meta : String → MetaInfo)
    (so : ℤ) : ∀ cs c', c' ∈ enrich_go bd pcs mv meta so cs →
      c'.open_price = 0 ∧ c'.vs_open = 0 ∧ c'.is_green_since_open = true := by
  intro cs
  induction cs with
  | nil => intro c' h; cases h
  | cons c rest ih =>
    intro c' h
    unfold enrich_go at h
    rcases hlk : bd.lookup c.symbol with _ | bars
    · simp only [hlk] at h
      exact ih c' h
    · simp only [hlk] at h
      by_cases hb : bars = []
      · rw [if_pos hb] at h
        exact ih c' h
      · rw [if_neg hb] at h
        rcases List.mem_cons.mp h with h1 | h1
        · subst h1
          obtain ⟨hop, hvs⟩ :=
            compute_all_indicators_no_open_keys bars so (pcs.lookup c.symbol) 5 14
          have hop0 := ind_get_q_of_lookup_none _ _ (0 : ℚ) hop
          have hvs0 := ind_get_q_of_lookup_none _ _ (0 : ℚ) hvs
          simp only [enrich_one, hop0, hvs0]
          norm_num
        · exact ih c' h1

/-- Helper: membership in a conditionally-present flag chunk. -/
theorem mem_flag_chunk (x : String) (P : Prop) [Decidable P] (l : List String) :
    x ∈ (if P then l else []) ↔ P ∧ x ∈ l := by
  by_cases hP : P
  · simp [hP]
  · simp [hP]

theorem fade_flag_not_mem (c : Candidate) (h : c.is_green_since_open = true) :
    "fading_from_open" ∉ compute_risk_flags c := by
  intro hm
  unfold compute_risk_flags at hm
  rcases hsf : c.shares_float with _ | f <;> rcases hmc : c.market_cap with _ | mc <;>
    simp only [hsf, hmc] at hm <;>
    simp [mem_flag_chunk, h] at hm

theorem enrichment_never_fades :
    (∀ (bars : List Bar) (so : ℤ) (pc : Option ℚ) (om ap : ℕ),
      (compute_all_indicators bars so pc om ap).lookup "open_price" = none ∧
      (compute_all_indicators bars so pc om ap).lookup "vs_open" = none) ∧
    (∀ (cs : List Candidate) (b1 b5 : List (String × List Bar))
        (pcs : List (String × ℚ)) (meta : String → MetaInfo) (so : ℤ)
        (c' : Candidate), c' ∈ enrich_candidates cs b1 b5 pcs meta so →
      c'.open_price = 0 ∧ c'.vs_open = 0 ∧ c'.is_green_since_open = true) ∧
    (∀ c : Candidate, c.vs_open = 0 → fade_adjustment c = (0, none)) ∧
    (∀ c : Candidate, c.is_green_since_open = true →
      "fading_from_open" ∉ compute_risk_flags c) := by
  refine ⟨compute_all_indicators_no_open_keys, ?_, ?_, fade_flag_not_mem⟩
  · intro cs b1 b5 pcs meta so c' h
    unfold enrich_candidates at h
    by_cases hcs : cs = []
    · rw [if_pos hcs] at h
      cases h
    · rw [if_neg hcs] at h
      exact enrich_go_open_fields _ _ _ _ _ cs c' h
  · intro c h
    unfold fade_adjustment
    rw [h]
    norm_num

theorem enrichment_never_fades_witness :
    (enrich_one c3_cand [c3_bar] none none {} 0).open_price = 0 ∧
    (enrich_one c3_cand [c3_bar] none none {} 0).vs_open = 0 ∧
    (enrich_one c3_cand [c3_bar] none none {} 0).is_green_since_open = true ∧
    fade_adjustment c3_cand = (0, none) ∧
    "fading_from_open" ∉ compute_risk_flags c3_cand := by
  have hmem : enrich_one c3_cand [c3_bar] none none {} 0 ∈
      enrich_candidates [c3_cand] [("AAA", [c3_bar])] [] [] (fun _ => {}) 0 := by
    simp [enrich_candidates, enrich_go, c3_cand, c3_bar]
  obtain ⟨h1, h2, h3⟩ := (enrichment_never_fades).2.1 [c3_cand] [("AAA", [c3_bar])]
    [] [] (fun _ => {}) 0 _ hmem
  exact ⟨h1, h2, h3, (enrichment_never_fades).2.2.1 c3_cand rfl,
    (enrichment_never_fades).2.2.2 c3_cand rfl⟩

/-- Helper: a successful ATR extension check means the guard was false and
the result is the neutral pair (the settings read inside the guard always
raises). -/
theorem atr_check_ok_elim (s : Settings) (c : Candidate) (x : ℚ × Option ℚ)
    (h : atr_extension_check s c = .ok x) :
    ¬(c.vwap > 0 ∧ c.atr_1m > 0) ∧ x = (0, none) := by
  unfold atr_extension_check at h
  by_cases hg : c.vwap > 0 ∧ c.atr_1m > 0
  · rw [if_pos hg] at h
    simp [settings_num_attr] at h
  · rw [if_neg hg] at h
    injection h with h
    exact ⟨hg, h.symm⟩

/-- Helper: with the guard false the ATR extension check returns the
neutral pair. -/
theorem atr_check_of_not (s : Settings) (c : Candidate)
    (hg : ¬(c.vwap > 0 ∧ c.atr_1m > 0)) :
    atr_extension_check s c = .ok (0, none) := by
  unfold atr_extension_check
  rw [if_neg hg]

/-- Helper: the pure scoring update keeps every non-metadata field. -/
theorem score_apply_fields (pr rr nr atr_adj : ℚ) (overext : Option ℚ)
    (c : Candidate) :
    (score_apply pr rr nr atr_adj overext c).pct_change = c.pct_change ∧
    (score_apply pr rr nr atr_adj overext c).rvol = c.rvol ∧
    (score_apply pr rr nr atr_adj overext c).near_hod = c.near_hod ∧
    (score_apply pr rr nr atr_adj overext c).vwap = c.vwap ∧
    (score_apply pr rr nr atr_adj overext c).atr_1m = c.atr_1m :=
  ⟨rfl, rfl, rfl, rfl, rfl⟩

/-- Helper: the neutral scoring update is idempotent. -/
theorem score_apply_idem (pr rr nr : ℚ) (c : Candidate) :
    score_apply pr rr nr 0 none (score_apply pr rr nr 0 none c) =
      score_apply pr rr nr 0 none c := by
  ext1
  case metadata =>
    ext1
    case fading_from_open =>
      show (match (fade_adjustment c).2 with
            | some b => some b
            | none =>
              match (fade_adjustment c).2 with
              | some b => some b
              | none => c.metadata.fading_from_open) =
          (match (fade_adjustment c).2 with
            | some b => some b
            | none => c.metadata.fading_from_open)
      rcases hX : (fade_adjustment c).2 with _ | b <;> rfl
    all_goals rfl
  all_goals rfl

/-- Helper: a successful `score_one` is idempotent and leaves the three
ranked fields unchanged. -/
theorem score_one_idem (s : Settings) (pr rr nr : ℚ) (c c' : Candidate)
    (h : score_one s pr rr nr c = .ok c') :
    score_one s pr rr nr c' = .ok c' ∧ c'.pct_change = c.pct_change ∧
      c'.rvol = c.rvol ∧ c'.near_hod = c.near_hod := by
  unfold score_one at h
  rcases hac : atr_extension_check s c with e | x
  · simp only [hac] at h
    exact Except.noConfusion h
  · obtain ⟨hg, hx⟩ := atr_check_ok_elim s c x hac
    subst hx
    simp only [hac] at h
    injection h with h
    subst h
    refine ⟨?_, rfl, rfl, rfl⟩
    unfold score_one
    have hg2 : ¬((score_apply pr rr nr 0 none c).vwap > 0 ∧
        (score_apply pr rr nr 0 none c).atr_1m > 0) := hg
    rw [atr_check_of_not s _ hg2]
    exact congrArg Except.ok (score_apply_idem pr rr nr c)

/-- Helper: a successful scoring loop is idempotent and preserves the
three ranked metric columns. -/
theorem score_list_idem (s : Settings) (prs rrs nrs : List ℚ) :
    ∀ (cs : List Candidate) (i : ℕ) (cs' : List Candidate),
      score_list s prs rrs nrs i cs = .ok cs' →
      score_list s prs rrs nrs i cs' = .ok cs' ∧
      cs'.map (·.pct_change) = cs.map (·.pct_change) ∧
      cs'.map (·.rvol) = cs.map (·.rvol) ∧
      cs'.map (·.near_hod) = cs.map (·.near_hod) := by
  intro cs
  induction cs with
  | nil =>
    intro i cs' h
    simp only [score_list] at h
    injection h with h
    subst h
    exact ⟨rfl, rfl, rfl, rfl⟩
  | cons c rest ih =>
    intro i cs' h
    simp only [score_list] at h
    rcases h1 : score_one s (prs.getD i 0) (rrs.getD i 0) (nrs.getD i 0) c with e | c2
    · simp only [h1] at h
      exact Except.noConfusion h
    · simp only [h1] at h
      rcases h2 : score_list s prs rrs nrs (i + 1) rest with e | rest2
      · simp only [h2] at h
        exact Except.noConfusion h
      · simp only [h2] at h
        injection h with h
        subst h
        obtain ⟨hi1, hp1, hr1, hn1⟩ := score_one_idem s _ _ _ c c2 h1
        obtain ⟨hi2, hp2, hr2, hn2⟩ := ih (i + 1) rest2 h2
        refine ⟨?_, ?_, ?_, ?_⟩
        · simp only [score_list, hi1, hi2]
        · simp only [List.map_cons, hp1, hp2]
        · simp only [List.map_cons, hr1, hr2]
        · simp only [List.map_cons, hn1, hn2]

/-- Claim C9: scoring is idempotent — when `compute_scores` succeeds on a
candidate list, running it again on its own output succeeds and leaves
every candidate (including the stored `final_score`, `base_score`,
`adjustment` and rank fractions in the metadata) exactly as after the
first run. -/
theorem compute_scores_idempotent (s : Settings) (cs cs' : List Candidate)
    (h : compute_scores s cs = .ok cs') : compute_scores s cs' = .ok cs' := by
  unfold compute_scores at h ⊢
  by_cases hcs : cs = []
  · subst hcs
    simp only [if_pos rfl] at h
    injection h with h
    subst h
    simp
  · rw [if_neg hcs] at h
    obtain ⟨hid, hp, hr, hn⟩ := score_list_idem s _ _ _ cs 0 cs' h
    have hlen : cs'.length = cs.length := by
      have := congrArg List.length hp
      simpa using this
    have hcs' : cs' ≠ [] := by
      intro h0
      subst h0
      exact hcs (List.length_eq_zero.mp hlen.symm)
    rw [if_neg hcs', hp, hr, hn]
    exact hid

/-- Witness for claim C9 at a concrete one-candidate list. -/
theorem compute_scores_idempotent_witness :
    compute_scores test_settings [c9_cand] = .ok [c9_scored] ∧
    compute_scores test_settings [c9_scored] = .ok [c9_scored] := by
  have h : compute_scores test_settings [c9_cand] = .ok [c9_scored] := by
    norm_num [compute_scores, rank_normalize, score_list, score_one,
      atr_extension_check, score_apply, vwap_adjustment, extreme_gainer_adjustment,
      fade_adjustment, continuation_bonus, round_to, round_half_even,
      c9_cand, c9_scored]
  exact ⟨h, compute_scores_idempotent test_settings [c9_cand] [c9_scored] h⟩

/-- Claim C5: `compute_scores` is claimed to store a clamped final score
for every candidate; instead it raises `AttributeError` on any list
containing a candidate with `vwap > 0` and `atr_1m > 0`, because the ATR
overextension penalty reads `settings.max_extension_atr`, which `Settings`
does not define. -/
theorem compute_scores_atr_raises (s : Settings) :
    compute_scores s [c5_cand] = .error (.attributeError "max_extension_atr") := by
  have hattr : settings_num_attr s "max_extension_atr" =
      .error (.attributeError "max_extension_atr") := rfl
  norm_num [compute_scores, rank_normalize, score_list, score_one,
    atr_extension_check, hattr, c5_cand]

/-- Claim C4: the two-phase filter is claimed to place an enriched
candidate whose market cap exceeds `max_market_cap` into the rejected set;
instead `run_scan` raises `AttributeError` as soon as the post-enrichment
filter reaches the market-cap check, because `Settings` defines neither
`min_market_cap` nor `max_market_cap` (nor `max_pct_change`, which the same
section reads for every candidate). -/
theorem run_scan_market_cap_raises :
    run_scan test_settings [c4_mover] [("AAA", [c4_bar])] [] [("AAA", (5 : ℚ))]
      (fun _ => c4_meta) 0 = .error (.attributeError "min_market_cap") := by
  rfl

/-- Helper: every element of a `takeWhile` prefix satisfies the predicate,
so the prefix's count of the predicate is its length. -/
theorem countP_takeWhile (q : α → Bool) (l : List α) :
    (l.takeWhile q).countP q = (l.takeWhile q).length := by
  induction l with
  | nil => rfl
  | cons a t ih =>
    by_cases h : q a
    · simp [List.takeWhile_cons, h, List.countP_cons, ih]
    · simp [List.takeWhile_cons, h]

/-- Helper: in a value-sorted pair list whose values all sit at or above
`v0`, everything surviving `dropWhile (value = v0)` sits strictly above
`v0`. -/
theorem dropWhile_gt_of_sorted (v0 : ℚ) :
    ∀ l : List (ℕ × ℚ), List.Sorted le_val l → (∀ p ∈ l, v0 ≤ p.2) →
      ∀ p ∈ l.dropWhile (fun p => decide (p.2 = v0)), v0 < p.2 := by
  intro l
  induction l with
  | nil => intro _ _ p hp; cases hp
  | cons a t ih =>
    intro hs hge p hp
    by_cases ha : a.2 = v0
    · rw [List.dropWhile_cons_of_pos (by simpa using ha)] at hp
      exact ih hs.of_cons (fun q hq => hge q (List.mem_cons_of_mem a hq)) p hp
    · rw [List.dropWhile_cons_of_neg (by simpa using ha)] at hp
      have hav0 : v0 < a.2 :=
        lt_of_le_of_ne (hge a (List.mem_cons_self a t)) (Ne.symm ha)
      rcases List.mem_cons.mp hp with h1 | h1
      · exact h1 ▸ hav0
      · exact lt_of_lt_of_le hav0 (List.rel_of_sorted_cons hs p h1)

/-- Helper: the tie-handling loop assigns to every entry of a sorted pair
list the average rank of its tie group, offset by the running position
`i`: the group of value `v` occupies sorted positions
`i + cnt_lt` through `i + cnt_lt + cnt_eq - 1`. -/
theorem rank_pairs_go_mem :
    ∀ (fuel : ℕ) (l : List (ℕ × ℚ)), l.length ≤ fuel → List.Sorted le_val l →
      ∀ (i idx : ℕ) (v : ℚ), (idx, v) ∈ l →
        (idx, (((i + cnt_lt l v : ℕ) : ℚ) +
          ((i + cnt_lt l v + cnt_eq l v : ℕ) : ℚ) - 1) / 2) ∈
            rank_pairs_go fuel i l := by
  intro fuel
  induction fuel with
  | zero =>
    intro l hf _ i idx v hmem
    rw [List.length_eq_zero.mp (Nat.le_zero.mp hf)] at hmem
    cases hmem
  | succ fuel ih =>
    intro l hf hs i idx v hmem
    match l with
    | [] => cases hmem
    | (idx0, v0) :: rest =>
      have hrest_ge : ∀ p ∈ rest, v0 ≤ p.2 := fun p hp =>
        List.rel_of_sorted_cons hs p hp
      have hall_ge : ∀ p ∈ (idx0, v0) :: rest, v0 ≤ p.2 := by
        intro p hp
        rcases List.mem_cons.mp hp with h1 | h1
        · rw [h1]
        · exact hrest_ge p h1
      have htw_eq : ∀ p ∈ rest.takeWhile (fun p => decide (p.2 = v0)), p.2 = v0 := by
        intro p hp
        have h1 := List.mem_takeWhile_imp (p := fun q : ℕ × ℚ => decide (q.2 = v0)) hp
        simpa using h1
      have hdw_gt : ∀ p ∈ rest.dropWhile (fun p => decide (p.2 = v0)), v0 < p.2 :=
        dropWhile_gt_of_sorted v0 rest hs.of_cons hrest_ge
      have hsplit : rest.takeWhile (fun p => decide (p.2 = v0)) ++
          rest.dropWhile (fun p => decide (p.2 = v0)) = rest :=
        List.takeWhile_append_dropWhile _ _
      have hcnt_rest : ∀ q : (ℕ × ℚ) → Bool, rest.countP q =
          (rest.takeWhile (fun p => decide (p.2 = v0))).countP q +
          (rest.dropWhile (fun p => decide (p.2 = v0))).countP q := by
        intro q
        conv_lhs => rw [← hsplit]
        exact List.countP_append _ _ _
      have hmem_split : (idx, v) = (idx0, v0) ∨
          (idx, v) ∈ rest.takeWhile (fun p => decide (p.2 = v0)) ∨
          (idx, v) ∈ rest.dropWhile (fun p => decide (p.2 = v0)) := by
        rcases List.mem_cons.mp hmem with h1 | h1
        · exact Or.inl h1
        · rw [← hsplit] at h1
          exact Or.inr (List.mem_append.mp h1)
      simp only [rank_pairs_go, List.length_cons]
      by_cases hv : v = v0
      · subst hv
        have hlt0 : cnt_lt ((idx0, v) :: rest) v = 0 := by
          rw [cnt_lt, List.countP_eq_zero]
          intro p hp
          simpa using not_lt_of_le (hall_ge p hp)
        have heq0 : cnt_eq ((idx0, v) :: rest) v =
            (rest.takeWhile (fun p => decide (p.2 = v))).length + 1 := by
          rw [cnt_eq, List.countP_cons_of_pos _ _ (by simp),
            hcnt_rest (fun p => decide (p.2 = v))]
          have h1 : (rest.takeWhile (fun p => decide (p.2 = v))).countP
              (fun p => decide (p.2 = v)) =
              (rest.takeWhile (fun p => decide (p.2 = v))).length :=
            countP_takeWhile _ _
          have h2 : (rest.dropWhile (fun p => decide (p.2 = v))).countP
              (fun p => decide (p.2 = v)) = 0 := by
            rw [List.countP_eq_zero]
            intro p hp
            simpa using ne_of_gt (hdw_gt p hp)
          rw [h1, h2]
        have hmem_grp : (idx, v) ∈ (idx0, v) ::
            rest.takeWhile (fun p => decide (p.2 = v)) := by
          rcases hmem_split with h1 | h1 | h1
          · rw [h1]
            exact List.mem_cons_self _ _
          · exact List.mem_cons_of_mem _ h1
          · exact absurd rfl (ne_of_gt (hdw_gt _ h1))
        refine List.mem_append_left _ ?_
        rw [List.mem_map]
        refine ⟨(idx, v), hmem_grp, ?_⟩
        rw [hlt0, heq0]
        push_cast
        ring_nf
      · have hv0v : v0 < v := by
          rcases List.mem_cons.mp hmem with h1 | h1
          · exact absurd (congrArg Prod.snd h1) hv
          · exact lt_of_le_of_ne (hrest_ge _ h1) (fun h => hv (h ▸ rfl))
        have hmem_dw : (idx, v) ∈ rest.dropWhile (fun p => decide (p.2 = v0)) := by
          rcases hmem_split with h1 | h1 | h1
          · exact absurd (congrArg Prod.snd h1) hv
          · exact absurd (htw_eq _ h1) hv
          · exact h1
        have hlt_split : cnt_lt ((idx0, v0) :: rest) v =
            (rest.takeWhile (fun p => decide (p.2 = v0))).length + 1 +
              cnt_lt (rest.dropWhile (fun p => decide (p.2 = v0))) v := by
          rw [cnt_lt, List.countP_cons_of_pos _ _ (by simpa using hv0v),
            hcnt_rest (fun p => decide (p.2 < v))]
          have h1 : (rest.takeWhile (fun p => decide (p.2 = v0))).countP
              (fun p => decide (p.2 < v)) =
              (rest.takeWhile (fun p => decide (p.2 = v0))).length := by
            rw [List.countP_eq_length]
            intro p hp
            simpa using (htw_eq p hp) ▸ hv0v
          rw [h1, cnt_lt]
          ring
        have heq_split : cnt_eq ((idx0, v0) :: rest) v =
            cnt_eq (rest.dropWhile (fun p => decide (p.2 = v0))) v := by
          rw [cnt_eq, List.countP_cons_of_neg _ _ (by simpa using Ne.symm hv),
            hcnt_rest (fun p => decide (p.2 = v))]
          have h1 : (rest.takeWhile (fun p => decide (p.2 = v0))).countP
              (fun p => decide (p.2 = v)) = 0 := by
            rw [List.countP_eq_zero]
            intro p hp
            simpa using (htw_eq p hp) ▸ (Ne.symm hv)
          rw [h1, cnt_eq]
          ring
        have hdw_len : (rest.dropWhile (fun p => decide (p.2 = v0))).length ≤ fuel := by
          have h1 : (rest.dropWhile (fun p => decide (p.2 = v0))).length ≤ rest.length :=
            (List.dropWhile_sublist _).length_le
          have h2 : rest.length + 1 ≤ fuel + 1 := by simpa using hf
          omega
        have hdw_sorted : List.Sorted le_val
            (rest.dropWhile (fun p => decide (p.2 = v0))) :=
          hs.of_cons.sublist (List.dropWhile_sublist _)
        have ihres := ih (rest.dropWhile (fun p => decide (p.2 = v0))) hdw_len
          hdw_sorted (i + ((rest.takeWhile (fun p => decide (p.2 = v0))).length + 1))
          idx v hmem_dw
        refine List.mem_append_right _ ?_
        have havg : ((((i + ((rest.takeWhile (fun p => decide (p.2 = v0))).length + 1)) +
            cnt_lt (rest.dropWhile (fun p => decide (p.2 = v0))) v : ℕ) : ℚ) +
            (((i + ((rest.takeWhile (fun p => decide (p.2 = v0))).length + 1)) +
              cnt_lt (rest.dropWhile (fun p => decide (p.2 = v0))) v +
              cnt_eq (rest.dropWhile (fun p => decide (p.2 = v0))) v : ℕ) : ℚ) - 1) / 2 =
            (((i + cnt_lt ((idx0, v0) :: rest) v : ℕ) : ℚ) +
            ((i + cnt_lt ((idx0, v0) :: rest) v + cnt_eq ((idx0, v0) :: rest) v : ℕ) : ℚ)
              - 1) / 2 := by
          rw [hlt_split, heq_split]
          push_cast
          ring
        rw [← havg]
        exact ihres

/-- Helper: the loop emits exactly one rank per entry, preserving the
original indices in order. -/
theorem rank_pairs_go_fst :
    ∀ (fuel : ℕ) (l : List (ℕ × ℚ)) (i : ℕ), l.length ≤ fuel →
      (rank_pairs_go fuel i l).map Prod.fst = l.map Prod.fst := by
  intro fuel
  induction fuel with
  | zero =>
    intro l i hf
    rw [List.length_eq_zero.mp (Nat.le_zero.mp hf)]
    rfl
  | succ fuel ih =>
    intro l i hf
    match l with
    | [] => rfl
    | (idx0, v0) :: rest =>
      have hsplit : rest.takeWhile (fun p => decide (p.2 = v0)) ++
          rest.dropWhile (fun p => decide (p.2 = v0)) = rest :=
        List.takeWhile_append_dropWhile _ _
      have hdw_len : (rest.dropWhile (fun p => decide (p.2 = v0))).length ≤ fuel := by
        have h1 : (rest.dropWhile (fun p => decide (p.2 = v0))).length ≤ rest.length :=
          (List.dropWhile_sublist _).length_le
        have h2 : rest.length + 1 ≤ fuel + 1 := by simpa using hf
        omega
      simp only [rank_pairs_go, List.map_append, List.map_map, List.map_cons]
      rw [ih _ _ hdw_len]
      have h1 : ∀ a : ℚ, List.map (Prod.fst ∘ fun p : ℕ × ℚ => (p.1, a))
          (rest.takeWhile (fun p => decide (p.2 = v0))) =
          List.map Prod.fst (rest.takeWhile (fun p => decide (p.2 = v0))) := by
        intro a
        simp [Function.comp]
      rw [h1, List.cons_append, ← List.map_append, hsplit]

/-- Helper: folding `set` over pairs whose indices avoid `idx` leaves
position `idx` unchanged. -/
theorem foldl_set_not_mem (c : ℚ) :
    ∀ (pairs : List (ℕ × ℚ)) (init : List ℚ) (idx : ℕ),
      idx ∉ pairs.map Prod.fst →
      (pairs.foldl (fun acc p => acc.set p.1 (p.2 / c)) init)[idx]? = init[idx]? := by
  intro pairs
  induction pairs with
  | nil => intro init idx _; rfl
  | cons q rest ih =>
    intro init idx h
    simp only [List.map_cons, List.mem_cons] at h
    push_neg at h
    simp only [List.foldl_cons]
    rw [ih _ _ h.2, List.getElem?_set_ne (Ne.symm h.1)]

/-- Helper: folding `set` over pairs with pairwise-distinct indices writes
each pair's scaled rank at its index. -/
theorem foldl_set_mem (c : ℚ) :
    ∀ (pairs : List (ℕ × ℚ)) (init : List ℚ) (idx : ℕ) (r : ℚ),
      (pairs.map Prod.fst).Nodup → (idx, r) ∈ pairs → idx < init.length →
      (pairs.foldl (fun acc p => acc.set p.1 (p.2 / c)) init)[idx]? = some (r / c) := by
  intro pairs
  induction pairs with
  | nil =>
    intro init idx r _ hmem _
    cases hmem
  | cons q rest ih =>
    intro init idx r hnd hmem hlen
    simp only [List.map_cons, List.nodup_cons] at hnd
    rcases List.mem_cons.mp hmem with h1 | h1
    · have hq1 : q.1 = idx := by rw [← h1]
      have hq2 : q.2 = r := by rw [← h1]
      simp only [List.foldl_cons]
      rw [foldl_set_not_mem c rest _ idx (by rw [← hq1]; exact hnd.1), hq1, hq2,
        List.getElem?_set_eq_of_lt _ hlen]
    · simp only [List.foldl_cons]
      exact ih _ idx r hnd.2 h1 (by rw [List.length_set]; exact hlen)

/-- Helper: the fold of `set` keeps the accumulator's length. -/
theorem foldl_set_length (c : ℚ) :
    ∀ (pairs : List (ℕ × ℚ)) (init : List ℚ),
      (pairs.foldl (fun acc p => acc.set p.1 (p.2 / c)) init).length = init.length := by
  intro pairs
  induction pairs with
  | nil => intro init; rfl
  | cons q rest ih =>
    intro init
    simp only [List.foldl_cons]
    rw [ih, List.length_set]

/-- Helper: counting a property of the values through `enumFrom`. -/
theorem countP_enumFrom (q : ℚ → Bool) :
    ∀ (l : List ℚ) (n : ℕ),
      (l.enumFrom n).countP (fun p => q p.2) = l.countP q := by
  intro l
  induction l with
  | nil => intro n; rfl
  | cons a t ih =>
    intro n
    simp only [List.enumFrom, List.countP_cons, ih]

/-- Helper: every position of a list appears in its enumeration paired
with the value there. -/
theorem mem_enumFrom_getD :
    ∀ (l : List ℚ) (i n : ℕ), i < l.length → (n + i, l.getD i 0) ∈ l.enumFrom n := by
  intro l
  induction l with
  | nil =>
    intro i n hi
    cases hi
  | cons a t ih =>
    intro i n hi
    match i with
    | 0 => simp [List.enumFrom]
    | i + 1 =>
      have h1 := ih i (n + 1) (by simpa using hi)
      have h2 : n + 1 + i = n + (i + 1) := by omega
      rw [h2] at h1
      simp only [List.enumFrom, List.getD_cons_succ]
      exact List.mem_cons_of_mem _ h1

/-- Helper: the master formula of `rank_normalize` — position `i` receives
the average rank of the tie group of its value (counted over the whole
list) divided by `n - 1`. -/
theorem rank_normalize_getD (values : List ℚ) (h2 : 2 ≤ values.length)
    (i : ℕ) (hi : i < values.length) :
    (rank_normalize values).getD i 0 =
      ((((val_lt values (values.getD i 0) : ℕ) : ℚ) +
        ((val_lt values (values.getD i 0) + val_eq values (values.getD i 0) : ℕ) : ℚ) - 1) / 2) /
        ((values.length : ℚ) - 1) := by
  have hn0 : ¬(values.length = 0) := by omega
  have hn1 : ¬(values.length = 1) := by omega
  simp only [rank_normalize]
  rw [if_neg hn0, if_neg hn1]
  have hperm : (List.insertionSort le_val values.enum).Perm values.enum :=
    List.perm_insertionSort le_val values.enum
  have hsorted : List.Sorted le_val (List.insertionSort le_val values.enum) :=
    List.sorted_insertionSort le_val values.enum
  have hmem : (i, values.getD i 0) ∈ List.insertionSort le_val values.enum := by
    have h4 := mem_enumFrom_getD values i 0 hi
    rw [Nat.zero_add] at h4
    exact (hperm.mem_iff).2 h4
  have hcnt_lt : cnt_lt (List.insertionSort le_val values.enum) (values.getD i 0) =
      val_lt values (values.getD i 0) := by
    rw [cnt_lt, hperm.countP_eq, List.enum]
    exact countP_enumFrom (fun x => decide (x < values.getD i 0)) values 0
  have hcnt_eq : cnt_eq (List.insertionSort le_val values.enum) (values.getD i 0) =
      val_eq values (values.getD i 0) := by
    rw [cnt_eq, hperm.countP_eq, List.enum]
    exact countP_enumFrom (fun x => decide (x = values.getD i 0)) values 0
  have hpair := rank_pairs_go_mem (List.insertionSort le_val values.enum).length
    (List.insertionSort le_val values.enum) le_rfl hsorted 0 i (values.getD i 0) hmem
  simp only [Nat.zero_add, hcnt_lt, hcnt_eq] at hpair
  have hnodup : ((rank_pairs_go (List.insertionSort le_val values.enum).length 0
      (List.insertionSort le_val values.enum)).map Prod.fst).Nodup := by
    rw [rank_pairs_go_fst _ _ 0 le_rfl]
    have h3 : ((List.insertionSort le_val values.enum).map Prod.fst).Perm
        (values.enum.map Prod.fst) := hperm.map _
    rw [h3.nodup_iff, List.enum_map_fst]
    exact List.nodup_range _
  have hfold := foldl_set_mem ((values.length : ℚ) - 1)
    (rank_pairs_go (List.insertionSort le_val values.enum).length 0
      (List.insertionSort le_val values.enum))
    (List.replicate values.length 0) i _ hnodup hpair
    (by rw [List.length_replicate]; exact hi)
  rw [List.getD_eq_getElem?_getD, hfold]
  rfl

/-- Helper: counting `≤ u` splits into counting `< u` and counting
`= u`. -/
theorem countP_le_split (values : List ℚ) (u : ℚ) :
    values.countP (fun x => decide (x ≤ u)) =
      values.countP (fun x => decide (x < u)) +
      values.countP (fun x => decide (x = u)) := by
  induction values with
  | nil => rfl
  | cons a t ih =>
    rcases lt_trichotomy a u with h | h | h
    · rw [List.countP_cons_of_pos _ _ (by simpa using le_of_lt h),
        List.countP_cons_of_pos _ _ (by simpa using h),
        List.countP_cons_of_neg _ _ (by simpa using ne_of_lt h), ih]
      ring
    · rw [List.countP_cons_of_pos _ _ (by simpa using le_of_eq h),
        List.countP_cons_of_neg _ _ (by simpa using not_lt_of_le (le_of_eq h.symm)),
        List.countP_cons_of_pos _ _ (by simpa using h), ih]
      ring
    · rw [List.countP_cons_of_neg _ _ (by simpa using not_le_of_lt h),
        List.countP_cons_of_neg _ _ (by simpa using not_lt_of_le (le_of_lt h)),
        List.countP_cons_of_neg _ _ (by simpa using ne_of_gt h), ih]

/-- Helper: `val_lt` is strictly monotone across values present in the
list. -/
theorem val_lt_strict_mono (values : List ℚ) (u w : ℚ) (hu : u ∈ values)
    (huw : u < w) : val_lt values u < val_lt values w := by
  have h1 : values.countP (fun x => decide (x ≤ u)) ≤
      values.countP (fun x => decide (x < w)) := by
    apply List.countP_mono_left
    intro x _ hx
    simp only [decide_eq_true_eq] at hx ⊢
    exact lt_of_le_of_lt hx huw
  have h2 : 0 < values.countP (fun x => decide (x = u)) := by
    rw [List.countP_pos_iff]
    exact ⟨u, hu, by simp⟩
  have h3 := countP_le_split values u
  rw [val_lt, val_lt]
  omega

/-- Helper: a value present in the list has fewer than `length` values
strictly below it. -/
theorem val_lt_lt_length (values : List ℚ) (v : ℚ) (hv : v ∈ values) :
    val_lt values v < values.length := by
  rcases lt_or_eq_of_le (List.countP_le_length (fun x => decide (x < v))) with h | h
  · exact h
  · exfalso
    have h1 := List.countP_eq_length.mp h v hv
    simp at h1

/-- Helper: in a duplicate-free list every present value is counted
exactly once by `val_eq`. -/
theorem val_eq_nodup (values : List ℚ) (hnd : values.Nodup) (v : ℚ)
    (hv : v ∈ values) : val_eq values v = 1 := by
  induction values with
  | nil => cases hv
  | cons a t ih =>
    rw [List.nodup_cons] at hnd
    rcases List.mem_cons.mp hv with h1 | h1
    · subst h1
      rw [val_eq, List.countP_cons_of_pos _ _ (by simp)]
      have h2 : t.countP (fun x => decide (x = v)) = 0 := by
        rw [List.countP_eq_zero]
        intro x hx
        simp only [decide_eq_true_eq]
        intro h3
        exact hnd.1 (h3 ▸ hx)
      omega
    · rw [val_eq, List.countP_cons_of_neg _ _ (by
        simp only [decide_eq_true_eq]
        intro h3
        exact hnd.1 (h3 ▸ h1))]
      exact ih hnd.2 h1

/-- Helper: `rank_normalize` returns one rank per input value. -/
theorem rank_normalize_length (values : List ℚ) :
    (rank_normalize values).length = values.length := by
  simp only [rank_normalize]
  by_cases h0 : values.length = 0
  · rw [if_pos h0, h0]
    rfl
  · rw [if_neg h0]
    by_cases h1 : values.length = 1
    · rw [if_pos h1, h1]
      rfl
    · rw [if_neg h1, foldl_set_length, List.length_replicate]

/-- Helper: tied inputs receive identical ranks. -/
theorem rank_normalize_ties (values : List ℚ) (i j : ℕ)
    (hi : i < values.length) (hj : j < values.length)
    (hv : values.getD i 0 = values.getD j 0) :
    (rank_normalize values).getD i 0 = (rank_normalize values).getD j 0 := by
  by_cases h2 : 2 ≤ values.length
  · rw [rank_normalize_getD values h2 i hi, rank_normalize_getD values h2 j hj, hv]
  · have hi0 : i = 0 := by omega
    have hj0 : j = 0 := by omega
    rw [hi0, hj0]

/-- Helper: over duplicate-free values position `i` receives exactly
`(number of smaller values) / (n - 1)`. -/
theorem rank_normalize_nodup_getD (values : List ℚ) (h2 : 2 ≤ values.length)
    (hnd : values.Nodup) (i : ℕ) (hi : i < values.length) :
    (rank_normalize values).getD i 0 =
      (val_lt values (values.getD i 0) : ℚ) / ((values.length : ℚ) - 1) := by
  have hmem : values.getD i 0 ∈ values := by
    rw [List.getD_eq_getElem values 0 hi]
    exact List.getElem_mem hi
  rw [rank_normalize_getD values h2 i hi, val_eq_nodup values hnd _ hmem]
  push_cast
  ring_nf

/-- Helper: over duplicate-free values the minimum position maps to `0`. -/
theorem rank_normalize_nodup_min (values : List ℚ) (h2 : 2 ≤ values.length)
    (hnd : values.Nodup) (i : ℕ) (hi : i < values.length)
    (hmin : ∀ j, j < values.length → values.getD i 0 ≤ values.getD j 0) :
    (rank_normalize values).getD i 0 = 0 := by
  rw [rank_normalize_nodup_getD values h2 hnd i hi]
  have h0 : val_lt values (values.getD i 0) = 0 := by
    rw [val_lt, List.countP_eq_zero]
    intro x hx
    obtain ⟨j, hj, hjx⟩ := List.mem_iff_getElem.mp hx
    have := hmin j hj
    rw [List.getD_eq_getElem values 0 hj, hjx] at this
    simpa using not_lt_of_le this
  rw [h0]
  simp

/-- Helper: over duplicate-free values the maximum position maps to `1`. -/
theorem rank_normalize_nodup_max (values : List ℚ) (h2 : 2 ≤ values.length)
    (hnd : values.Nodup) (i : ℕ) (hi : i < values.length)
    (hmax : ∀ j, j < values.length → values.getD j 0 ≤ values.getD i 0) :
    (rank_normalize values).getD i 0 = 1 := by
  rw [rank_normalize_nodup_getD values h2 hnd i hi]
  have hmem : values.getD i 0 ∈ values := by
    rw [List.getD_eq_getElem values 0 hi]
    exact List.getElem_mem hi
  have hle : values.countP (fun x => decide (x ≤ values.getD i 0)) =
      values.length := by
    rw [List.countP_eq_length]
    intro x hx
    obtain ⟨j, hj, hjx⟩ := List.mem_iff_getElem.mp hx
    have := hmax j hj
    rw [List.getD_eq_getElem values 0 hj, hjx] at this
    simpa using this
  have hsplit := countP_le_split values (values.getD i 0)
  have heq1 := val_eq_nodup values hnd _ hmem
  rw [val_eq] at heq1
  have hval : val_lt values (values.getD i 0) = values.length - 1 := by
    rw [val_lt]
    omega
  rw [hval]
  have h1 : ((values.length - 1 : ℕ) : ℚ) = (values.length : ℚ) - 1 := by
    have : 1 ≤ values.length := by omega
    push_cast [this]
    ring
  rw [h1]
  have h2q : ((values.length : ℚ) - 1) ≠ 0 := by
    have : (2 : ℚ) ≤ (values.length : ℚ) := by exact_mod_cast h2
    linarith
  exact div_self h2q

/-- Helper: over `n ≥ 2` duplicate-free values every fractional rank
`k / (n - 1)` with `k < n` is attained. -/
theorem rank_normalize_nodup_surj (values : List ℚ) (h2 : 2 ≤ values.length)
    (hnd : values.Nodup) (k : ℕ) (hk : k < values.length) :
    ∃ i, i < values.length ∧ (rank_normalize values).getD i 0 =
      (k : ℚ) / ((values.length : ℚ) - 1) := by
  have hmemD : ∀ m : Fin values.length, values.getD m.1 0 ∈ values := by
    intro m
    rw [List.getD_eq_getElem values 0 m.2]
    exact List.getElem_mem m.2
  let f : Fin values.length → Fin values.length := fun m =>
    ⟨val_lt values (values.getD m.1 0),
      val_lt_lt_length values _ (hmemD m)⟩
  have hinj : Function.Injective f := by
    intro a b hab
    by_contra hne
    have hvne : values.getD a.1 0 ≠ values.getD b.1 0 := by
      rw [List.getD_eq_getElem values 0 a.2, List.getD_eq_getElem values 0 b.2]
      rw [Ne, hnd.getElem_inj_iff]
      exact fun h => hne (Fin.ext h)
    have hfab : val_lt values (values.getD a.1 0) =
        val_lt values (values.getD b.1 0) := congrArg Fin.val hab
    rcases lt_or_gt_of_ne hvne with h | h
    · exact absurd hfab (ne_of_lt (val_lt_strict_mono values _ _ (hmemD a) h))
    · exact absurd hfab.symm (ne_of_lt (val_lt_strict_mono values _ _ (hmemD b) h))
  have hsurj : Function.Surjective f := Finite.injective_iff_surjective.mp hinj
  obtain ⟨m, hm⟩ := hsurj ⟨k, hk⟩
  refine ⟨m.1, m.2, ?_⟩
  rw [rank_normalize_nodup_getD values h2 hnd m.1 m.2]
  have : val_lt values (values.getD m.1 0) = k := congrArg Fin.val hm
  rw [this]

/-- Claim C8: `rank_normalize` maps each element to its fractional rank in
`[0,1]`: the empty list maps to `[]`, a one-element list to `[0.5]`; in
general position `i` receives the average rank of the tie group of its
value divided by `n - 1` (so equal inputs receive identical outputs); and
for `n ≥ 2` distinct values position `i` receives
`(number of smaller values)/(n-1)`, the minimum maps to `0`, the maximum to
`1`, and every fraction `k/(n-1)` with `k < n` is attained. -/
theorem rank_normalize_spec :
    rank_normalize [] = [] ∧
    (∀ x : ℚ, rank_normalize [x] = [1/2]) ∧
    (∀ values : List ℚ, (rank_normalize values).length = values.length) ∧
    (∀ values : List ℚ, 2 ≤ values.length → ∀ i, i < values.length →
      (rank_normalize values).getD i 0 =
        ((((val_lt values (values.getD i 0) : ℕ) : ℚ) +
          ((val_lt values (values.getD i 0) + val_eq values (values.getD i 0) : ℕ) : ℚ)
            - 1) / 2) / ((values.length : ℚ) - 1)) ∧
    (∀ (values : List ℚ) (i j : ℕ), i < values.length → j < values.length →
      values.getD i 0 = values.getD j 0 →
      (rank_normalize values).getD i 0 = (rank_normalize values).getD j 0) ∧
    (∀ values : List ℚ, 2 ≤ values.length → values.Nodup →
      ∀ i, i < values.length →
        (rank_normalize values).getD i 0 =
          (val_lt values (values.getD i 0) : ℚ) / ((values.length : ℚ) - 1) ∧
        ((∀ j, j < values.length → values.getD i 0 ≤ values.getD j 0) →
          (rank_normalize values).getD i 0 = 0) ∧
        ((∀ j, j < values.length → values.getD j 0 ≤ values.getD i 0) →
          (rank_normalize values).getD i 0 = 1)) ∧
    (∀ values : List ℚ, 2 ≤ values.length → values.Nodup →
      ∀ k, k < values.length → ∃ i, i < values.length ∧
        (rank_normalize values).getD i 0 = (k : ℚ) / ((values.length : ℚ) - 1)) :=
  ⟨rfl, fun _ => rfl, rank_normalize_length,
   fun values h2 i hi => rank_normalize_getD values h2 i hi,
   fun values i j hi hj hv => rank_normalize_ties values i j hi hj hv,
   fun values h2 hnd i hi =>
     ⟨rank_normalize_nodup_getD values h2 hnd i hi,
      fun hmin => rank_normalize_nodup_min values h2 hnd i hi hmin,
      fun hmax => rank_normalize_nodup_max values h2 hnd i hi hmax⟩,
   fun values h2 hnd k hk => rank_normalize_nodup_surj values h2 hnd k hk⟩

/-- Witness for claim C8 at concrete lists. -/
theorem rank_normalize_spec_witness :
    rank_normalize ([] : List ℚ) = [] ∧
    rank_normalize [(7 : ℚ)] = [1/2] ∧
    (rank_normalize [(1 : ℚ), 2, 2]).getD 1 0 =
      (rank_normalize [(1 : ℚ), 2, 2]).getD 2 0 ∧
    (rank_normalize [(3 : ℚ), 1, 2]).getD 1 0 = 0 ∧
    (rank_normalize [(3 : ℚ), 1, 2]).getD 0 0 = 1 :=
  ⟨rank_normalize_spec.1,
   rank_normalize_spec.2.1 7,
   rank_normalize_spec.2.2.2.2.1 [1, 2, 2] 1 2 (by norm_num) (by norm_num)
     (by norm_num),
   (rank_normalize_spec.2.2.2.2.2.1 [3, 1, 2] (by norm_num) (by decide) 1
     (by norm_num)).2.1 (by decide),
   (rank_normalize_spec.2.2.2.2.2.1 [3, 1, 2] (by norm_num) (by decide) 0
     (by norm_num)).2.2 (by decide)⟩
